import Mathlib

/-!
# Verification of the oci-extract extraction engine

Shallow embedding of the extraction engine of `amartani/oci-extract`:
path canonicalisation (`internal/pathutil`), layer-format detection
(`internal/detector/format.go`), the HTTP range reader
(`internal/remote/reader.go`), the streaming tar extractors
(`internal/standard/extractor.go`, `internal/zstd/extractor.go`) and the
orchestrator (`internal/extractor/orchestrator.go`).

Strings are modelled as `List Char`, blob bytes as `List Nat`.
-/

/-! ## Path utilities -/

/-- Go `strings.HasPrefix(s, pre)` on character lists. -/
def hasPrefixL (s pre : List Char) : Bool :=
  match pre, s with
  | [], _ => true
  | _ :: _, [] => false
  | p :: ps, c :: cs => decide (c = p) && hasPrefixL cs ps

/-- Go `strings.TrimPrefix(s, pre)`: removes `pre` from the front of `s`
when present, otherwise returns `s` unchanged. -/
def trimPrefixL (s pre : List Char) : List Char :=
  if hasPrefixL s pre then s.drop pre.length else s

def dotSlash : List Char := ['.', '/']

def slashL : List Char := ['/']

/-- Function `pathutil.NormalizeForDisplay`: strip one leading `./`, then prepend
`/` when the result does not already start with `/`. -/
def NormalizeForDisplay (path : List Char) : List Char :=
  let p := trimPrefixL path dotSlash
  if hasPrefixL p slashL then p else '/' :: p

/-- Entry-name normalisation performed by the streaming extractors on each
tar header name: `strings.TrimPrefix(name, "./")` then
`strings.TrimPrefix(·, "/")`. -/
def normalizeEntryName (name : List Char) : List Char :=
  trimPrefixL (trimPrefixL name dotSlash) slashL

/-- Request normalisation performed by the streaming extractors on the
target path: `strings.TrimPrefix(targetPath, "/")`. -/
def normalizeTarget (targetPath : List Char) : List Char :=
  trimPrefixL targetPath slashL

/-! ## Tar model and the streaming extractors

`internal/standard/extractor.go` and the streaming half of
`internal/zstd/extractor.go` are character-identical walks over the tar
entries of the decompressed layer; both are embedded once as
`ExtractFileTar` / the `ListFiles*` functions below.  A tar entry carries
the header name, the type flag, the link name and the file body. -/

inductive TarType where
  | reg
  | symlink
  | hardlink
  | dir
  | other
deriving DecidableEq, Repr

structure TarEntry where
  name : List Char
  typeflag : TarType
  linkname : List Char
  body : List Nat
deriving DecidableEq, Repr

/-- Outcome of the local filesystem calls made while writing the output
file: `os.MkdirAll`, `os.Create` and `io.Copy`. -/
structure FsOutcome where
  mkdirOk : Bool
  createOk : Bool
  copyOk : Bool
deriving DecidableEq, Repr

def fsAllOk : FsOutcome := ⟨true, true, true⟩

/-- Errors a single strategy attempt can produce (the `error` returns of
`ExtractFile` in the streaming extractors, plus a decompressor failure
and an abstract external failure for the seekable strategies). -/
inductive StratErr where
  | notFound (target : List Char)
  | notRegular (target : List Char)
  | symlinkTo (target linkname : List Char)
  | ioError
  | decompress
  | external
deriving DecidableEq, Repr

/-- A file created on disk: output path paired with the bytes written. -/
abbrev FsWrite := List Char × List Nat

/-- Processing of the matching tar entry in `ExtractFile`: the type
checks, then `MkdirAll` (0755), `Create` (0644) and the body copy.  The
second component lists the files created; a failed copy leaves a created
file with indeterminate content, modelled as empty. -/
def handleEntry (fs : FsOutcome) (targetPath outputPath : List Char)
    (e : TarEntry) : Except StratErr Unit × List FsWrite :=
  if e.typeflag ≠ TarType.reg ∧ e.typeflag ≠ TarType.symlink
      ∧ e.typeflag ≠ TarType.hardlink then
    (Except.error (StratErr.notRegular targetPath), [])
  else if e.typeflag = TarType.symlink ∨ e.typeflag = TarType.hardlink then
    (Except.error (StratErr.symlinkTo targetPath e.linkname), [])
  else if fs.mkdirOk = false then
    (Except.error StratErr.ioError, [])
  else if fs.createOk = false then
    (Except.error StratErr.ioError, [])
  else if fs.copyOk = false then
    (Except.error StratErr.ioError, [(outputPath, [])])
  else
    (Except.ok (), [(outputPath, e.body)])

/-- The tar walk of `ExtractFile`: iterate the entries in stream order,
compare normalised names, and hand the first match to `handleEntry`.
Reaching the end of the archive yields the not-found error. -/
def ExtractFileTar (fs : FsOutcome) (targetPath outputPath : List Char) :
    List TarEntry → Except StratErr Unit × List FsWrite
  | [] => (Except.error (StratErr.notFound targetPath), [])
  | e :: es =>
    if normalizeEntryName e.name = normalizeTarget targetPath then
      handleEntry fs targetPath outputPath e
    else
      ExtractFileTar fs targetPath outputPath es

/-- Functions `standard.Extractor.ListFiles` / `zstd.Extractor.ListFiles`: collect
the raw header names of the regular-file entries. -/
def ListFilesStandard (entries : List TarEntry) : List (List Char) :=
  (entries.filter fun e => e.typeflag = TarType.reg).map (fun e => e.name)

/-- Function `zstd.ChunkedExtractor.ListFiles`: collect the regular-file
names through `pathutil.NormalizeForDisplay`. -/
def ListFilesChunked (entries : List TarEntry) : List (List Char) :=
  (entries.filter fun e => e.typeflag = TarType.reg).map
    (fun e => NormalizeForDisplay e.name)

/-! ## Format detector (`internal/detector/format.go`) -/

inductive Format where
  | unknown
  | standard
  | estargz
  | soci
  | zstd
  | zstdChunked
deriving DecidableEq, Repr

/-- The facts about a layer blob the detector can observe: its media
type, its size, and its raw bytes (available through
`layer.Compressed()`). -/
structure LayerBlob where
  mediaType : String
  size : Int
  bytes : List Nat
deriving DecidableEq, Repr

/-- Function `checkEStargzFooter`, as written in the source: after the `size < 47`
guard the function returns `false` without ever reading the final 47
bytes (the source comments call this a simplified check). -/
def checkEStargzFooter (l : LayerBlob) : Bool :=
  if l.size < 47 then false else false

/-- Function `DetectFormat`: zstd media types map to zstd, then the eStargz footer
check, then gzip media types map to standard, otherwise unknown. -/
def DetectFormat (l : LayerBlob) : Format :=
  if l.mediaType = "application/vnd.oci.image.layer.v1.tar+zstd"
      ∨ l.mediaType = "application/vnd.docker.image.rootfs.diff.tar.zstd" then
    Format.zstd
  else if checkEStargzFooter l then
    Format.estargz
  else if l.mediaType = "application/vnd.oci.image.layer.v1.tar+gzip"
      ∨ l.mediaType = "application/vnd.docker.image.rootfs.diff.tar.gzip" then
    Format.standard
  else
    Format.unknown

/-- The 15 magic bytes `estargz.footer` followed by a NUL, which terminate
a genuine 47-byte eStargz footer. -/
def estargzMagic : List Nat :=
  [101, 115, 116, 97, 114, 103, 122, 46, 102, 111, 111, 116, 101, 114, 0]

/-- Whether `suffix` terminates `s`. -/
def endsWithL (s suffix : List Nat) : Bool :=
  decide (s.drop (s.length - suffix.length) = suffix) && decide (suffix.length ≤ s.length)

/-- A gzip-media layer of exactly 47 bytes whose final 15 bytes are the
eStargz magic: 32 filler bytes followed by the magic string. -/
def estargzFooterLayer : LayerBlob :=
  { mediaType := "application/vnd.oci.image.layer.v1.tar+gzip"
    size := 47
    bytes := List.replicate 32 48 ++ estargzMagic }

/-! ## Orchestrator (`internal/extractor/orchestrator.go`)

A layer, as the orchestrator sees it, carries the descriptor facts
(media type, size) and the behaviour of the five strategies on it.  The
two streaming strategies walk the tar entries obtained by decompressing
the blob with the respective decompressor (`none` when the blob is not a
valid stream of that compression); the three seekable strategies
(eStargz, SOCI, zstd:chunked TOC) depend on external libraries and the
network, and their attempt outcomes are abstracted as data.  The
filesystem writes of the seekable strategies are outside the model; the
theorems below only exercise layers on which those strategies are either
gated off or failing. -/

structure LayerM where
  mediaType : String
  size : Int
  gzEntries : Option (List TarEntry)
  zstdEntries : Option (List TarEntry)
  estargzRes : Except StratErr Unit
  sociRes : Except StratErr Unit
  chunkRes : Except StratErr Unit

/-- The detector's view of a layer (`checkEStargzFooter` never reads the
blob bytes, so they are irrelevant here). -/
def LayerM.blob (l : LayerM) : LayerBlob :=
  { mediaType := l.mediaType, size := l.size, bytes := [] }

/-- A streaming strategy: decompress, then run the shared tar walk. -/
def ExtractFileStream (fs : FsOutcome) (targetPath outputPath : List Char) :
    Option (List TarEntry) → Except StratErr Unit × List FsWrite
  | none => (Except.error StratErr.decompress, [])
  | some es => ExtractFileTar fs targetPath outputPath es

inductive Strategy where
  | estargz
  | soci
  | zstdChunked
  | zstdStream
  | standard
deriving DecidableEq, Repr

/-- The check `err == nil && extracted` in the orchestrator's per-strategy check. -/
def isOkB : Except StratErr Unit → Bool
  | Except.ok _ => true
  | Except.error _ => false

/-- Last stage of `extractFromLayer`: the standard (gzip-stream)
fallback, guarded by `format == FormatUnknown || format == FormatStandard`. -/
def tryStandard (fs : FsOutcome) (targetPath outputPath : List Char)
    (l : LayerM) (fmt : Format) (tried : List Strategy) (w : List FsWrite) :
    Bool × List Strategy × List FsWrite :=
  if fmt = Format.unknown ∨ fmt = Format.standard then
    let r := ExtractFileStream fs targetPath outputPath l.gzEntries
    (isOkB r.1, tried ++ [Strategy.standard], w ++ r.2)
  else
    (false, tried, w)

/-- zstd-stream stage, guarded by `FormatUnknown || FormatZstd`. -/
def tryZstdStream (fs : FsOutcome) (targetPath outputPath : List Char)
    (l : LayerM) (fmt : Format) (tried : List Strategy) (w : List FsWrite) :
    Bool × List Strategy × List FsWrite :=
  if fmt = Format.unknown ∨ fmt = Format.zstd then
    let r := ExtractFileStream fs targetPath outputPath l.zstdEntries
    if isOkB r.1 then (true, tried ++ [Strategy.zstdStream], w ++ r.2)
    else tryStandard fs targetPath outputPath l fmt
      (tried ++ [Strategy.zstdStream]) (w ++ r.2)
  else
    tryStandard fs targetPath outputPath l fmt tried w

/-- zstd:chunked stage, guarded by
`FormatUnknown || FormatZstd || FormatZstdChunked`. -/
def tryZstdChunked (fs : FsOutcome) (targetPath outputPath : List Char)
    (l : LayerM) (fmt : Format) (tried : List Strategy) (w : List FsWrite) :
    Bool × List Strategy × List FsWrite :=
  if fmt = Format.unknown ∨ fmt = Format.zstd ∨ fmt = Format.zstdChunked then
    if isOkB l.chunkRes then (true, tried ++ [Strategy.zstdChunked], w)
    else tryZstdStream fs targetPath outputPath l fmt
      (tried ++ [Strategy.zstdChunked]) w
  else
    tryZstdStream fs targetPath outputPath l fmt tried w

/-- SOCI stage, guarded by `(FormatUnknown || FormatSOCI) && sociIndex != nil`. -/
def trySoci (fs : FsOutcome) (sociAvail : Bool) (targetPath outputPath : List Char)
    (l : LayerM) (fmt : Format) (tried : List Strategy) (w : List FsWrite) :
    Bool × List Strategy × List FsWrite :=
  if (fmt = Format.unknown ∨ fmt = Format.soci) ∧ sociAvail = true then
    if isOkB l.sociRes then (true, tried ++ [Strategy.soci], w)
    else tryZstdChunked fs targetPath outputPath l fmt
      (tried ++ [Strategy.soci]) w
  else
    tryZstdChunked fs targetPath outputPath l fmt tried w

/-- eStargz stage, guarded by `FormatUnknown || FormatEStargz`. -/
def tryEStargz (fs : FsOutcome) (sociAvail : Bool) (targetPath outputPath : List Char)
    (l : LayerM) (fmt : Format) (tried : List Strategy) (w : List FsWrite) :
    Bool × List Strategy × List FsWrite :=
  if fmt = Format.unknown ∨ fmt = Format.estargz then
    if isOkB l.estargzRes then (true, tried ++ [Strategy.estargz], w)
    else trySoci fs sociAvail targetPath outputPath l fmt
      (tried ++ [Strategy.estargz]) w
  else
    trySoci fs sociAvail targetPath outputPath l fmt tried w

/-- Method `Orchestrator.extractFromLayer`: detect the format (unless forced),
then attempt the gated strategy chain.  Besides the source's boolean
result it returns the list of strategies attempted and the files
written, so that the theorems can speak about them. -/
def extractFromLayerM (fs : FsOutcome) (sociAvail : Bool) (forceFormat : Format)
    (targetPath outputPath : List Char) (l : LayerM) :
    Bool × List Strategy × List FsWrite :=
  let fmt := if forceFormat = Format.unknown then DetectFormat l.blob else forceFormat
  tryEStargz fs sociAvail targetPath outputPath l fmt [] []

/-- The only error `Orchestrator.Extract` ever returns itself. -/
inductive TopErr where
  | notFoundAnyLayer (target : List Char)
deriving DecidableEq, Repr

/-- The layer loop of `Orchestrator.Extract`, processing the layer list
in the order probed (head = highest index). -/
def ExtractLoop (fs : FsOutcome) (sociAvail : Bool) (forceFormat : Format)
    (targetPath outputPath : List Char) :
    List LayerM → Except TopErr Unit × List FsWrite
  | [] => (Except.error (TopErr.notFoundAnyLayer targetPath), [])
  | l :: ls =>
    let r := extractFromLayerM fs sociAvail forceFormat targetPath outputPath l
    if r.1 then (Except.ok (), r.2.2)
    else
      let rest := ExtractLoop fs sociAvail forceFormat targetPath outputPath ls
      (rest.1, r.2.2 ++ rest.2)

/-- Method `Orchestrator.Extract`: probe layers in strict reverse index order
`n-1, n-2, …, 0` and stop at the first success; when no layer succeeds,
fail with "file … not found in any layer". -/
def ExtractM (fs : FsOutcome) (sociAvail : Bool) (forceFormat : Format)
    (targetPath outputPath : List Char) (layers : List LayerM) :
    Except TopErr Unit × List FsWrite :=
  ExtractLoop fs sociAvail forceFormat targetPath outputPath layers.reverse

/-- A standard gzip tar layer: gzip media type, gzip-decompressible into
`entries`, not zstd-decompressible, and with the external seekable
libraries failing on it (it has no eStargz TOC, zTOC or chunked TOC). -/
def mkGzipLayer (entries : List TarEntry) : LayerM :=
  { mediaType := "application/vnd.oci.image.layer.v1.tar+gzip"
    size := 100
    gzEntries := some entries
    zstdEntries := none
    estargzRes := Except.error StratErr.external
    sociRes := Except.error StratErr.external
    chunkRes := Except.error StratErr.external }

/-! ## Overlay predicate and C3 gating definitions -/

/-- Predicate: `p` is present in the entry list as a regular file (the index set `S`
of the overlay-semantics claim collects the layers satisfying this). -/
def hasRegEntry (target : List Char) (es : List TarEntry) : Prop :=
  ∃ e ∈ es, normalizeEntryName e.name = normalizeTarget target
    ∧ e.typeflag = TarType.reg

instance (target : List Char) (es : List TarEntry) :
    Decidable (hasRegEntry target es) := by
  unfold hasRegEntry
  infer_instance

/-- C2 counterexample: a failing `os.Create` during output writing in the
top layer is swallowed; the call continues past it and ends in the
not-found error rather than surfacing the I/O failure. -/
def fsNoCreate : FsOutcome := ⟨true, false, true⟩

/-! ## Strategy gating (C3) -/

/-- C3 counterexample layer: gzip media type, on which the eStargz
strategy would succeed if attempted. -/
def c3Layer : LayerM :=
  { mediaType := "application/vnd.oci.image.layer.v1.tar+gzip"
    size := 100
    gzEntries := some []
    zstdEntries := none
    estargzRes := Except.ok ()
    sociRes := Except.error StratErr.external
    chunkRes := Except.error StratErr.external }

/-- The per-strategy gate of `extractFromLayer`: the condition under
which the orchestrator's code reaches each strategy's attempt. -/
def strategyGate (fmt : Format) (sociAvail : Bool) : Strategy → Bool
  | Strategy.estargz => decide (fmt = Format.unknown ∨ fmt = Format.estargz)
  | Strategy.soci =>
    decide ((fmt = Format.unknown ∨ fmt = Format.soci) ∧ sociAvail = true)
  | Strategy.zstdChunked =>
    decide (fmt = Format.unknown ∨ fmt = Format.zstd ∨ fmt = Format.zstdChunked)
  | Strategy.zstdStream => decide (fmt = Format.unknown ∨ fmt = Format.zstd)
  | Strategy.standard => decide (fmt = Format.unknown ∨ fmt = Format.standard)

/-- The fixed fallback order of §4.A. -/
def fixedOrder : List Strategy :=
  [Strategy.estargz, Strategy.soci, Strategy.zstdChunked,
   Strategy.zstdStream, Strategy.standard]

/-- The fallback chain after format gating. -/
def gatedChain (fmt : Format) (sociAvail : Bool) : List Strategy :=
  fixedOrder.filter (strategyGate fmt sociAvail)

/-! ## Remote range reader (`internal/remote/reader.go`)

The reader holds the blob behind the URL and the `Content-Length`
recorded by `NewRemoteReader`; the HTTP client and URL are abstracted.
`ReadAt` additionally reports whether a ranged `GET` was issued, so the
no-network claims can be stated.  The server is honest: a request for
`bytes=off-endB` is answered with exactly those blob bytes. -/

def cacheCapacity : Nat := 1048576

structure Cache where
  cacheStart : Int
  cacheEnd : Int
  cacheData : List Nat
  cacheValid : Bool
deriving DecidableEq, Repr

/-- Cache state of a freshly constructed reader. -/
def freshCache : Cache := ⟨0, 0, [], false⟩

structure RemoteReader where
  blob : List Nat
  size : Int
deriving DecidableEq, Repr

/-- Constructor `NewRemoteReader` against an honest server: `Content-Length` is the
blob's length. -/
def mkRemoteReader (blob : List Nat) : RemoteReader := ⟨blob, (blob.length : Int)⟩

inductive ReadErr where
  | negativeOffset
  | eofSentinel
deriving DecidableEq, Repr

/-- Body of an honest 206 response to `Range: bytes=off-endB`. -/
def rangeBody (blob : List Nat) (off endB : Int) : List Nat :=
  (blob.drop off.toNat).take (endB - off + 1).toNat

/-- Cache-miss path of `ReadAt`: clamp the range end to the blob size,
issue the ranged `GET`, `io.ReadFull` the body into the buffer (short
reads at end-of-stream are tolerated), and install the cache segment when
`0 < n ≤ cacheSize`. -/
def readAtMiss (r : RemoteReader) (c : Cache) (bufLen : Nat) (off : Int) :
    Except ReadErr (List Nat) × Cache × Bool :=
  let endB := if r.size ≤ off + (bufLen : Int) - 1 then r.size - 1
              else off + (bufLen : Int) - 1
  let bytes := (rangeBody r.blob off endB).take bufLen
  let c' := if 0 < bytes.length ∧ bytes.length ≤ cacheCapacity then
      { cacheStart := off, cacheEnd := off + (bytes.length : Int),
        cacheData := bytes, cacheValid := true }
    else c
  (Except.ok bytes, c', true)

/-- Method `RemoteReader.ReadAt`: negative-offset check, end-of-stream sentinel,
cache-hit fast path, then the network path.  Returns the read result, the
cache afterwards, and whether a network request was issued. -/
def ReadAt (r : RemoteReader) (c : Cache) (bufLen : Nat) (off : Int) :
    Except ReadErr (List Nat) × Cache × Bool :=
  if off < 0 then
    (Except.error ReadErr.negativeOffset, c, false)
  else if r.size ≤ off then
    (Except.error ReadErr.eofSentinel, c, false)
  else if c.cacheValid = true ∧ c.cacheStart ≤ off
      ∧ off + (bufLen : Int) ≤ c.cacheEnd then
    (Except.ok ((c.cacheData.drop (off - c.cacheStart).toNat).take bufLen), c, false)
  else
    readAtMiss r c bufLen off

/-- Modelled from the spec: the §4.C read contract of a reader with the
single-segment cache disabled, used as the reference for cache
transparency. -/
def ReadAtNoCache (blob : List Nat) (bufLen : Nat) (off : Int) :
    Except ReadErr (List Nat) :=
  if off < 0 then Except.error ReadErr.negativeOffset
  else if (blob.length : Int) ≤ off then Except.error ReadErr.eofSentinel
  else Except.ok ((blob.drop off.toNat).take (min bufLen ((blob.length : Int) - off).toNat))

/-- Invariant of §3: cached bytes `[start, start+length)` are a verbatim
copy of the blob contents at that offset, within bounds. -/
def CacheInv (r : RemoteReader) (c : Cache) : Prop :=
  c.cacheValid = true →
    0 ≤ c.cacheStart ∧ c.cacheStart ≤ c.cacheEnd ∧ c.cacheEnd ≤ r.size
    ∧ c.cacheData
        = (r.blob.drop c.cacheStart.toNat).take (c.cacheEnd - c.cacheStart).toNat

/-- A sequence of `ReadAt` calls (buffer length, offset), threading the
cache from call to call, collecting each call's result. -/
def runReads (r : RemoteReader) : Cache → List (Nat × Int) → List (Except ReadErr (List Nat))
  | _, [] => []
  | c, q :: qs =>
    (ReadAt r c q.1 q.2).1 :: runReads r (ReadAt r c q.1 q.2).2.1 qs

/-! ## Theorems -/

/-! ### Path lemmas -/

theorem trimPrefixL_of_not {s pre : List Char} (h : hasPrefixL s pre = false) :
    trimPrefixL s pre = s := by
  simp [trimPrefixL, h]

theorem hasPrefixL_slash_iff (s : List Char) :
    hasPrefixL s slashL = true ↔ ∃ t, s = '/' :: t := by
  constructor
  · intro h
    match s with
    | [] => simp [hasPrefixL, slashL] at h
    | c :: cs =>
      simp only [hasPrefixL, slashL, Bool.and_eq_true, decide_eq_true_eq] at h
      exact ⟨cs, by rw [h.1]⟩
  · rintro ⟨t, rfl⟩
    simp [hasPrefixL, slashL]

theorem hasPrefixL_dotSlash_of_slash (t : List Char) :
    hasPrefixL ('/' :: t) dotSlash = false := by
  simp [hasPrefixL, dotSlash]

theorem NormalizeForDisplay_starts_slash (x : List Char) :
    ∃ t, NormalizeForDisplay x = '/' :: t := by
  unfold NormalizeForDisplay
  by_cases h : hasPrefixL (trimPrefixL x dotSlash) slashL = true
  · rcases (hasPrefixL_slash_iff _).mp h with ⟨t, ht⟩
    refine ⟨t, ?_⟩
    simp only [h, if_true]
    exact ht
  · exact ⟨trimPrefixL x dotSlash, by simp [eq_false_of_ne_true h]⟩

/-- Amended C9: display canonicalisation is idempotent for every string;
archive-name canonicalisation is idempotent only when its result retains
no leading `./` and no leading `/`. -/
theorem canon_idempotence (x : List Char) :
    NormalizeForDisplay (NormalizeForDisplay x) = NormalizeForDisplay x
    ∧ (hasPrefixL (normalizeEntryName x) dotSlash = false →
       hasPrefixL (normalizeEntryName x) slashL = false →
       normalizeEntryName (normalizeEntryName x) = normalizeEntryName x) := by
  constructor
  · rcases NormalizeForDisplay_starts_slash x with ⟨t, ht⟩
    rw [ht]
    unfold NormalizeForDisplay
    rw [trimPrefixL_of_not (hasPrefixL_dotSlash_of_slash t)]
    simp [(hasPrefixL_slash_iff ('/' :: t)).mpr ⟨t, rfl⟩]
  · intro h1 h2
    have hstep : normalizeEntryName (normalizeEntryName x) =
        trimPrefixL (trimPrefixL (normalizeEntryName x) dotSlash) slashL := rfl
    rw [hstep, trimPrefixL_of_not h1, trimPrefixL_of_not h2]

/-- Witness for `canon_idempotence` at a concrete input. -/
theorem canon_idempotence_witness :
    NormalizeForDisplay (NormalizeForDisplay ['a']) = NormalizeForDisplay ['a']
    ∧ normalizeEntryName (normalizeEntryName ['a']) = normalizeEntryName ['a'] :=
  ⟨(canon_idempotence ['a']).1,
   (canon_idempotence ['a']).2 (by decide) (by decide)⟩

/-- C9 counterexample: archive-name canonicalisation is not idempotent,
refuted at the entry name `././a`. -/
theorem normalizeEntryName_not_idempotent :
    normalizeEntryName (normalizeEntryName ['.', '/', '.', '/', 'a'])
      ≠ normalizeEntryName ['.', '/', '.', '/', 'a'] := by
  decide

/-! ## Theorems about the detector and the streaming extractors -/

/-- C4: `DetectFormat` never upgrades a gzip layer to estargz.  The layer
below has gzip media type, size 47 and a final-47-byte block terminated
by the eStargz magic, yet the detector classifies it as standard, because
`checkEStargzFooter` returns `false` without reading the footer. -/
theorem detectFormat_ignores_estargz_footer :
    47 ≤ estargzFooterLayer.size
    ∧ endsWithL estargzFooterLayer.bytes estargzMagic = true
    ∧ DetectFormat estargzFooterLayer = Format.standard := by
  refine ⟨by decide, by decide, ?_⟩
  rfl

/-- The streaming tar walk resolves the request to the first entry in
stream order whose normalised name equals the normalised request; entries
after it are never examined. -/
theorem ExtractFileTar_first_match (fs : FsOutcome)
    (targetPath outputPath : List Char) (pre : List TarEntry) (e : TarEntry)
    (post : List TarEntry)
    (hpre : ∀ e' ∈ pre, normalizeEntryName e'.name ≠ normalizeTarget targetPath)
    (hmatch : normalizeEntryName e.name = normalizeTarget targetPath) :
    ExtractFileTar fs targetPath outputPath (pre ++ e :: post)
      = handleEntry fs targetPath outputPath e := by
  induction pre with
  | nil => simp [ExtractFileTar, hmatch]
  | cons p ps ih =>
    have hp : normalizeEntryName p.name ≠ normalizeTarget targetPath :=
      hpre p (by simp)
    have hps : ∀ e' ∈ ps, normalizeEntryName e'.name ≠ normalizeTarget targetPath :=
      fun e' he' => hpre e' (by simp [he'])
    simpa [ExtractFileTar, hp] using ih hps

/-- C10: within one layer the first entry in stream order whose
canonicalised name matches the request decides the outcome, independently
of any later duplicate entries; when that entry is a regular file and the
local filesystem calls succeed, its bytes are written to the output. -/
theorem first_match_decides (fs : FsOutcome)
    (targetPath outputPath : List Char) (pre : List TarEntry) (e : TarEntry)
    (post : List TarEntry)
    (hpre : ∀ e' ∈ pre, normalizeEntryName e'.name ≠ normalizeTarget targetPath)
    (hmatch : normalizeEntryName e.name = normalizeTarget targetPath) :
    ExtractFileTar fs targetPath outputPath (pre ++ e :: post)
      = handleEntry fs targetPath outputPath e
    ∧ (e.typeflag = TarType.reg → fs = fsAllOk →
       ExtractFileTar fs targetPath outputPath (pre ++ e :: post)
         = (Except.ok (), [(outputPath, e.body)])) := by
  refine ⟨ExtractFileTar_first_match fs targetPath outputPath pre e post hpre hmatch, ?_⟩
  intro hreg hfs
  rw [ExtractFileTar_first_match fs targetPath outputPath pre e post hpre hmatch]
  subst hfs
  simp [handleEntry, hreg, fsAllOk]

/-- Witness for `first_match_decides`: a regular entry `a` shadowing a
later duplicate with different bytes. -/
theorem first_match_decides_witness :
    ExtractFileTar fsAllOk ['a'] ['o']
        [⟨['a'], TarType.reg, [], [1]⟩, ⟨['a'], TarType.reg, [], [2]⟩]
      = (Except.ok (), [(['o'], [1])]) :=
  (first_match_decides fsAllOk ['a'] ['o'] []
      ⟨['a'], TarType.reg, [], [1]⟩ [⟨['a'], TarType.reg, [], [2]⟩]
      (by intro e' he'; cases he') (by decide)).2 (by decide) rfl

/-- The layer loop only ever produces success or the not-found error,
whatever the per-layer outcomes. -/
theorem ExtractLoop_ok_or_notFound (fs : FsOutcome) (sociAvail : Bool)
    (forceFormat : Format) (target out : List Char) (ls : List LayerM) :
    (ExtractLoop fs sociAvail forceFormat target out ls).1 = Except.ok ()
    ∨ (ExtractLoop fs sociAvail forceFormat target out ls).1
        = Except.error (TopErr.notFoundAnyLayer target) := by
  induction ls with
  | nil => right; rfl
  | cons l ls ih =>
    by_cases hr : (extractFromLayerM fs sociAvail forceFormat target out l).1 = true
    · left
      simp [ExtractLoop, hr]
    · have hr' := eq_false_of_ne_true hr
      rcases ih with h | h
      · left
        simp [ExtractLoop, hr', h]
      · right
        simp [ExtractLoop, hr', h]

/-- C5 counterexample: with the requested path present as a symlink in
the top layer, the call does not fail with the link diagnostic.  With a
lower layer holding a regular copy, the call succeeds and the output
file is created from that lower layer; with no other copy, the surfaced
error is the not-found message, which does not mention the link
target. -/
theorem symlink_call_falls_through :
    ExtractM fsAllOk false Format.unknown ['p'] ['o']
        ([[⟨['p'], TarType.reg, [], [9]⟩],
          [⟨['p'], TarType.symlink, ['u'], []⟩]].map mkGzipLayer)
      = (Except.ok (), [(['o'], [9])])
    ∧ ExtractM fsAllOk false Format.unknown ['p'] ['o']
        ([[⟨['p'], TarType.symlink, ['u'], []⟩]].map mkGzipLayer)
      = (Except.error (TopErr.notFoundAnyLayer ['p']), []) := by
  constructor
  · rfl
  · rfl

/-- Amended C5: a symlink or hardlink first match fails the strategy with
the diagnostic carrying the requested path and the link target, the link
is not resolved, and the strategy creates no output file; the
orchestrator however swallows that diagnostic (it is printed only in
verbose mode) and keeps probing, so the call itself only ever surfaces
success - possibly writing a lower layer's copy of the path - or the
not-found error, never the link diagnostic. -/
theorem symlink_strategy_error_not_surfaced (fs : FsOutcome)
    (targetPath outputPath : List Char) (pre : List TarEntry) (e : TarEntry)
    (post : List TarEntry)
    (hpre : ∀ e' ∈ pre, normalizeEntryName e'.name ≠ normalizeTarget targetPath)
    (hmatch : normalizeEntryName e.name = normalizeTarget targetPath)
    (hlink : e.typeflag = TarType.symlink ∨ e.typeflag = TarType.hardlink) :
    ExtractFileTar fs targetPath outputPath (pre ++ e :: post)
      = (Except.error (StratErr.symlinkTo targetPath e.linkname), [])
    ∧ ∀ (fs2 : FsOutcome) (sociAvail : Bool) (forceFormat : Format)
        (t o : List Char) (layers : List LayerM),
        (ExtractM fs2 sociAvail forceFormat t o layers).1 = Except.ok ()
        ∨ (ExtractM fs2 sociAvail forceFormat t o layers).1
            = Except.error (TopErr.notFoundAnyLayer t) := by
  constructor
  · rw [ExtractFileTar_first_match fs targetPath outputPath pre e post hpre hmatch]
    rcases hlink with h | h <;> simp [handleEntry, h]
  · intro fs2 sociAvail forceFormat t o layers
    unfold ExtractM
    exact ExtractLoop_ok_or_notFound fs2 sociAvail forceFormat t o layers.reverse

/-- Witness for `symlink_strategy_error_not_surfaced`: requesting a path
whose entry is a symlink, on a single-layer image. -/
theorem symlink_strategy_error_not_surfaced_witness :
    ExtractFileTar fsAllOk ['/', 'e'] ['o']
        [⟨['e'], TarType.symlink, ['u'], []⟩]
      = (Except.error (StratErr.symlinkTo ['/', 'e'] ['u']), [])
    ∧ ((ExtractM fsAllOk false Format.unknown ['/', 'e'] ['o']
          [mkGzipLayer [⟨['e'], TarType.symlink, ['u'], []⟩]]).1 = Except.ok ()
        ∨ (ExtractM fsAllOk false Format.unknown ['/', 'e'] ['o']
            [mkGzipLayer [⟨['e'], TarType.symlink, ['u'], []⟩]]).1
              = Except.error (TopErr.notFoundAnyLayer ['/', 'e'])) :=
  ⟨(symlink_strategy_error_not_surfaced fsAllOk ['/', 'e'] ['o'] []
      ⟨['e'], TarType.symlink, ['u'], []⟩ []
      (by intro e' he'; cases he') (by decide) (Or.inl rfl)).1,
   (symlink_strategy_error_not_surfaced fsAllOk ['/', 'e'] ['o'] []
      ⟨['e'], TarType.symlink, ['u'], []⟩ []
      (by intro e' he'; cases he') (by decide) (Or.inl rfl)).2
     fsAllOk false Format.unknown ['/', 'e'] ['o']
     [mkGzipLayer [⟨['e'], TarType.symlink, ['u'], []⟩]]⟩

/-- C8: `standard.Extractor.ListFiles` (and the plain zstd one) emits the
raw header name, which for the unit test's `file1.txt` layer has no
leading `/`; only the zstd:chunked and SOCI list paths normalise. -/
theorem listFiles_standard_raw_names :
    ListFilesStandard [⟨['f', '1'], TarType.reg, [], [99]⟩]
      = [['f', '1']]
    ∧ hasPrefixL ['f', '1'] slashL = false
    ∧ ListFilesChunked [⟨['f', '1'], TarType.reg, [], [99]⟩]
      = [['/', 'f', '1']] := by
  decide

/-- On a gzip layer the detector answers standard, so the gated chain
reduces to the single standard (gzip-stream) attempt. -/
theorem extractFromLayerM_gzip (fs : FsOutcome) (sociAvail : Bool)
    (target out : List Char) (es : List TarEntry) :
    extractFromLayerM fs sociAvail Format.unknown target out (mkGzipLayer es)
      = (isOkB (ExtractFileTar fs target out es).1, [Strategy.standard],
         (ExtractFileTar fs target out es).2) := rfl

/-- A walk with no regular-file match never succeeds and creates no file,
whatever the filesystem outcomes. -/
theorem ExtractFileTar_no_reg (fs : FsOutcome) (target out : List Char)
    (es : List TarEntry) (h : ¬ hasRegEntry target es) :
    isOkB (ExtractFileTar fs target out es).1 = false
    ∧ (ExtractFileTar fs target out es).2 = [] := by
  induction es with
  | nil => exact ⟨rfl, rfl⟩
  | cons p ps ih =>
    by_cases hm : normalizeEntryName p.name = normalizeTarget target
    · have hp : p.typeflag ≠ TarType.reg := by
        intro hreg
        exact h ⟨p, List.mem_cons_self p ps, hm, hreg⟩
      cases htf : p.typeflag with
      | reg => exact absurd htf hp
      | symlink => constructor <;> simp [ExtractFileTar, hm, handleEntry, htf, isOkB]
      | hardlink => constructor <;> simp [ExtractFileTar, hm, handleEntry, htf, isOkB]
      | dir => constructor <;> simp [ExtractFileTar, hm, handleEntry, htf, isOkB]
      | other => constructor <;> simp [ExtractFileTar, hm, handleEntry, htf, isOkB]
    · have h' : ¬ hasRegEntry target ps := by
        rintro ⟨q, hq, hrest⟩
        exact h ⟨q, List.mem_cons_of_mem p hq, hrest⟩
      simpa [ExtractFileTar, hm] using ih h'

/-- On a duplicate-free layer containing `p` as a regular file, the walk
succeeds and writes exactly that entry's bytes. -/
theorem ExtractFileTar_success (target out : List Char) (es : List TarEntry)
    (e : TarEntry)
    (hnodup : (es.map fun x => normalizeEntryName x.name).Nodup)
    (he : e ∈ es) (hm : normalizeEntryName e.name = normalizeTarget target)
    (hr : e.typeflag = TarType.reg) :
    ExtractFileTar fsAllOk target out es = (Except.ok (), [(out, e.body)]) := by
  rcases List.mem_iff_append.mp he with ⟨s, t, rfl⟩
  have hpre : ∀ p ∈ s, normalizeEntryName p.name ≠ normalizeTarget target := by
    intro p hp hcontra
    have h2 : ((s.map fun x => normalizeEntryName x.name)
        ++ (normalizeEntryName e.name :: (t.map fun x => normalizeEntryName x.name))).Nodup := by
      simpa using hnodup
    have hdisj := List.disjoint_of_nodup_append h2
    refine hdisj (List.mem_map_of_mem (fun x => normalizeEntryName x.name) hp) ?_
    rw [hcontra, ← hm]
    exact List.mem_cons_self _ _
  rw [ExtractFileTar_first_match fsAllOk target out s e t hpre hm]
  simp [handleEntry, hr, fsAllOk]

/-- Layers with no regular-file match are skipped by the layer loop
without contributing writes. -/
theorem ExtractLoop_skip (fs : FsOutcome) (sociAvail : Bool)
    (target out : List Char) (pre rest : List (List TarEntry))
    (hpre : ∀ es ∈ pre, ¬ hasRegEntry target es) :
    ExtractLoop fs sociAvail Format.unknown target out
        ((pre ++ rest).map mkGzipLayer)
      = ExtractLoop fs sociAvail Format.unknown target out (rest.map mkGzipLayer) := by
  induction pre with
  | nil => rfl
  | cons p ps ih =>
    have hp := hpre p (List.mem_cons_self p ps)
    have hfail := ExtractFileTar_no_reg fs target out p hp
    have hps : ∀ es ∈ ps, ¬ hasRegEntry target es :=
      fun es hes => hpre es (List.mem_cons_of_mem p hes)
    have step1 : ExtractLoop fs sociAvail Format.unknown target out
        (((p :: ps) ++ rest).map mkGzipLayer)
        = ExtractLoop fs sociAvail Format.unknown target out
          ((ps ++ rest).map mkGzipLayer) := by
      simp only [List.cons_append, List.map_cons, ExtractLoop,
        extractFromLayerM_gzip, hfail.1, hfail.2]
      simp
    rw [step1]
    exact ih hps

/-- C1: for gzip-media layers with duplicate-free entry names and
working local I/O, `Extract` probes layers in reverse index order, stops
at the first success, and writes to the output path the bytes of `p`'s
entry from the highest-index layer containing `p` as a regular file. -/
theorem extract_overlay_semantics (entryLists : List (List TarEntry))
    (target out : List Char) (m : Nat) (e : TarEntry)
    (hm : m < entryLists.length)
    (hnodup : ∀ es ∈ entryLists, (es.map fun x => normalizeEntryName x.name).Nodup)
    (hmem : e ∈ entryLists[m])
    (hname : normalizeEntryName e.name = normalizeTarget target)
    (hreg : e.typeflag = TarType.reg)
    (hmax : ∀ j, (hj : j < entryLists.length) →
      hasRegEntry target (entryLists[j]) → j ≤ m) :
    ExtractM fsAllOk false Format.unknown target out (entryLists.map mkGzipLayer)
      = (Except.ok (), [(out, e.body)]) := by
  unfold ExtractM
  have hrev : (entryLists.map mkGzipLayer).reverse = entryLists.reverse.map mkGzipLayer :=
    (List.map_reverse mkGzipLayer entryLists).symm
  rw [hrev]
  have hdec : entryLists.reverse
      = (entryLists.drop (m + 1)).reverse
        ++ (entryLists[m] :: (entryLists.take m).reverse) := by
    conv_lhs => rw [← List.take_append_drop m entryLists,
      List.drop_eq_getElem_cons hm]
    rw [List.reverse_append, List.reverse_cons, List.append_assoc,
      List.singleton_append]
  rw [hdec]
  have hpre : ∀ es ∈ (entryLists.drop (m + 1)).reverse, ¬ hasRegEntry target es := by
    intro es hes
    rw [List.mem_reverse] at hes
    rcases List.mem_iff_getElem.mp hes with ⟨i, hi, hget⟩
    have hlen : m + 1 + i < entryLists.length := by
      have := hi
      simp only [List.length_drop] at this
      omega
    have hval : entryLists[m + 1 + i] = es := by
      rw [← hget]
      exact (List.getElem_drop ..).symm
    intro hregp
    have := hmax (m + 1 + i) hlen (by rw [hval]; exact hregp)
    omega
  rw [ExtractLoop_skip fsAllOk false target out _ _ hpre]
  have hok := ExtractFileTar_success target out (entryLists[m]) e
    (hnodup _ (List.getElem_mem hm)) hmem hname hreg
  simp only [List.map_cons, ExtractLoop, extractFromLayerM_gzip, hok, isOkB]
  rfl

/-- Witness for `extract_overlay_semantics`: two layers where only the
upper (index 1) contains `p`, extracted with its bytes `[7]`. -/
theorem extract_overlay_semantics_witness :
    ExtractM fsAllOk false Format.unknown ['p'] ['o']
        ([[], [⟨['p'], TarType.reg, [], [7]⟩]].map mkGzipLayer)
      = (Except.ok (), [(['o'], [7])]) :=
  extract_overlay_semantics [[], [⟨['p'], TarType.reg, [], [7]⟩]] ['p'] ['o'] 1
    ⟨['p'], TarType.reg, [], [7]⟩ (by decide) (by decide) (by decide)
    (by decide) (by decide)
    (fun j hj _ => by
      simp only [List.length_cons, List.length_nil] at hj
      omega)

theorem io_error_swallowed :
    (ExtractFileTar fsNoCreate ['p'] ['o'] [⟨['p'], TarType.reg, [], [7]⟩]).1
      = Except.error StratErr.ioError
    ∧ ExtractM fsNoCreate false Format.unknown ['p'] ['o']
        ([[], [⟨['p'], TarType.reg, [], [7]⟩]].map mkGzipLayer)
      = (Except.error (TopErr.notFoundAnyLayer ['p']), []) := by
  constructor
  · rfl
  · rfl

/-- Amended C2: the orchestrator surfaces only success or the not-found
error; every per-strategy failure, local I/O failures during output
writing included, is advisory and never raised to the caller. -/
theorem extract_surfaces_only_notFound (fs : FsOutcome) (sociAvail : Bool)
    (forceFormat : Format) (target out : List Char) (layers : List LayerM) :
    (ExtractM fs sociAvail forceFormat target out layers).1 = Except.ok ()
    ∨ (ExtractM fs sociAvail forceFormat target out layers).1
        = Except.error (TopErr.notFoundAnyLayer target) := by
  unfold ExtractM
  exact ExtractLoop_ok_or_notFound fs sociAvail forceFormat target out layers.reverse

/-- C3 counterexample: with no forced format, a layer detected as
standard-gzip is handed only to the gzip-stream strategy; eStargz is
skipped even though its attempt would have succeeded. -/
theorem detector_gates_chain :
    c3Layer.estargzRes = Except.ok ()
    ∧ (extractFromLayerM fsAllOk true Format.unknown ['a'] ['o'] c3Layer).2.1
        = [Strategy.standard]
    ∧ Strategy.estargz
        ∉ (extractFromLayerM fsAllOk true Format.unknown ['a'] ['o'] c3Layer).2.1 := by
  have htrace : (extractFromLayerM fsAllOk true Format.unknown ['a'] ['o'] c3Layer).2.1
      = [Strategy.standard] := rfl
  refine ⟨rfl, htrace, ?_⟩
  rw [htrace]
  decide

theorem tryStandard_trace (fs : FsOutcome) (sociAvail : Bool)
    (target out : List Char) (l : LayerM) (fmt : Format)
    (tried : List Strategy) (w : List FsWrite) :
    (∃ k, (tryStandard fs target out l fmt tried w).2.1
        = tried ++ (List.filter (strategyGate fmt sociAvail) [Strategy.standard]).take k)
    ∧ ((tryStandard fs target out l fmt tried w).1 = false →
       (tryStandard fs target out l fmt tried w).2.1
         = tried ++ List.filter (strategyGate fmt sociAvail) [Strategy.standard]) := by
  by_cases hg : fmt = Format.unknown ∨ fmt = Format.standard
  · have hgate : strategyGate fmt sociAvail Strategy.standard = true := by
      simp [strategyGate, hg]
    constructor
    · exact ⟨1, by simp [tryStandard, hg, hgate, List.filter]⟩
    · intro _
      simp [tryStandard, hg, hgate, List.filter]
  · have hgate : strategyGate fmt sociAvail Strategy.standard = false :=
      decide_eq_false hg
    constructor
    · exact ⟨0, by simp [tryStandard, hg, hgate, List.filter]⟩
    · intro _
      simp [tryStandard, hg, hgate, List.filter]

theorem tryZstdStream_trace (fs : FsOutcome) (sociAvail : Bool)
    (target out : List Char) (l : LayerM) (fmt : Format)
    (tried : List Strategy) (w : List FsWrite) :
    (∃ k, (tryZstdStream fs target out l fmt tried w).2.1
        = tried ++ (List.filter (strategyGate fmt sociAvail)
            [Strategy.zstdStream, Strategy.standard]).take k)
    ∧ ((tryZstdStream fs target out l fmt tried w).1 = false →
       (tryZstdStream fs target out l fmt tried w).2.1
         = tried ++ List.filter (strategyGate fmt sociAvail)
             [Strategy.zstdStream, Strategy.standard]) := by
  by_cases hg : fmt = Format.unknown ∨ fmt = Format.zstd
  · have hgate : strategyGate fmt sociAvail Strategy.zstdStream = true := by
      simp [strategyGate, hg]
    by_cases hok : isOkB (ExtractFileStream fs target out l.zstdEntries).1 = true
    · constructor
      · refine ⟨1, ?_⟩
        simp [tryZstdStream, hg, hok, hgate, List.filter]
      · intro hfail
        exfalso
        simp [tryZstdStream, hg, hok] at hfail
    · have hok' := eq_false_of_ne_true hok
      have heq : tryZstdStream fs target out l fmt tried w
          = tryStandard fs target out l fmt (tried ++ [Strategy.zstdStream])
            (w ++ (ExtractFileStream fs target out l.zstdEntries).2) := by
        simp [tryZstdStream, hg, hok']
      have hrec := tryStandard_trace fs sociAvail target out l fmt
        (tried ++ [Strategy.zstdStream]) (w ++ (ExtractFileStream fs target out l.zstdEntries).2)
      constructor
      · rcases hrec.1 with ⟨k, hk⟩
        refine ⟨k + 1, ?_⟩
        rw [heq, hk]
        simp [hgate, List.filter_cons, List.take_succ_cons, List.append_assoc]
      · intro hfail
        rw [heq] at hfail ⊢
        rw [hrec.2 hfail]
        simp [hgate, List.filter_cons, List.append_assoc]
  · have hgate : strategyGate fmt sociAvail Strategy.zstdStream = false :=
      decide_eq_false hg
    have hrec := tryStandard_trace fs sociAvail target out l fmt tried w
    have heq : tryZstdStream fs target out l fmt tried w
        = tryStandard fs target out l fmt tried w := by
      simp [tryZstdStream, hg]
    rw [heq]
    simpa [hgate, List.filter_cons] using hrec

theorem tryZstdChunked_trace (fs : FsOutcome) (sociAvail : Bool)
    (target out : List Char) (l : LayerM) (fmt : Format)
    (tried : List Strategy) (w : List FsWrite) :
    (∃ k, (tryZstdChunked fs target out l fmt tried w).2.1
        = tried ++ (List.filter (strategyGate fmt sociAvail)
            [Strategy.zstdChunked, Strategy.zstdStream, Strategy.standard]).take k)
    ∧ ((tryZstdChunked fs target out l fmt tried w).1 = false →
       (tryZstdChunked fs target out l fmt tried w).2.1
         = tried ++ List.filter (strategyGate fmt sociAvail)
             [Strategy.zstdChunked, Strategy.zstdStream, Strategy.standard]) := by
  by_cases hg : fmt = Format.unknown ∨ fmt = Format.zstd ∨ fmt = Format.zstdChunked
  · have hgate : strategyGate fmt sociAvail Strategy.zstdChunked = true := by
      simp [strategyGate, hg]
    by_cases hok : isOkB l.chunkRes = true
    · constructor
      · exact ⟨1, by simp [tryZstdChunked, hg, hok, hgate, List.filter]⟩
      · intro hfail
        exfalso
        simp [tryZstdChunked, hg, hok] at hfail
    · have hok' := eq_false_of_ne_true hok
      have heq : tryZstdChunked fs target out l fmt tried w
          = tryZstdStream fs target out l fmt (tried ++ [Strategy.zstdChunked]) w := by
        simp [tryZstdChunked, hg, hok']
      have hrec := tryZstdStream_trace fs sociAvail target out l fmt
        (tried ++ [Strategy.zstdChunked]) w
      constructor
      · rcases hrec.1 with ⟨k, hk⟩
        refine ⟨k + 1, ?_⟩
        rw [heq, hk]
        simp [hgate, List.filter_cons, List.take_succ_cons, List.append_assoc]
      · intro hfail
        rw [heq] at hfail ⊢
        rw [hrec.2 hfail]
        simp [hgate, List.filter_cons, List.append_assoc]
  · have hgate : strategyGate fmt sociAvail Strategy.zstdChunked = false :=
      decide_eq_false hg
    have heq : tryZstdChunked fs target out l fmt tried w
        = tryZstdStream fs target out l fmt tried w := by
      simp [tryZstdChunked, hg]
    rw [heq]
    simpa [hgate, List.filter_cons] using
      tryZstdStream_trace fs sociAvail target out l fmt tried w

theorem trySoci_trace (fs : FsOutcome) (sociAvail : Bool)
    (target out : List Char) (l : LayerM) (fmt : Format)
    (tried : List Strategy) (w : List FsWrite) :
    (∃ k, (trySoci fs sociAvail target out l fmt tried w).2.1
        = tried ++ (List.filter (strategyGate fmt sociAvail)
            [Strategy.soci, Strategy.zstdChunked, Strategy.zstdStream,
             Strategy.standard]).take k)
    ∧ ((trySoci fs sociAvail target out l fmt tried w).1 = false →
       (trySoci fs sociAvail target out l fmt tried w).2.1
         = tried ++ List.filter (strategyGate fmt sociAvail)
             [Strategy.soci, Strategy.zstdChunked, Strategy.zstdStream,
              Strategy.standard]) := by
  by_cases hg : (fmt = Format.unknown ∨ fmt = Format.soci) ∧ sociAvail = true
  · obtain ⟨hg1, hg2⟩ := hg
    subst hg2
    have hg : (fmt = Format.unknown ∨ fmt = Format.soci) ∧ true = true := ⟨hg1, rfl⟩
    have hgate : strategyGate fmt true Strategy.soci = true := by
      simp [strategyGate, hg1]
    by_cases hok : isOkB l.sociRes = true
    · constructor
      · exact ⟨1, by simp [trySoci, hg1, hok, hgate, List.filter]⟩
      · intro hfail
        exfalso
        simp [trySoci, hg1, hok] at hfail
    · have hok' := eq_false_of_ne_true hok
      have heq : trySoci fs true target out l fmt tried w
          = tryZstdChunked fs target out l fmt (tried ++ [Strategy.soci]) w := by
        simp [trySoci, hg1, hok']
      have hrec := tryZstdChunked_trace fs true target out l fmt
        (tried ++ [Strategy.soci]) w
      constructor
      · rcases hrec.1 with ⟨k, hk⟩
        refine ⟨k + 1, ?_⟩
        rw [heq, hk]
        simp [hgate, List.filter_cons, List.take_succ_cons, List.append_assoc]
      · intro hfail
        rw [heq] at hfail ⊢
        rw [hrec.2 hfail]
        simp [hgate, List.filter_cons, List.append_assoc]
  · have hgate : strategyGate fmt sociAvail Strategy.soci = false :=
      decide_eq_false hg
    have heq : trySoci fs sociAvail target out l fmt tried w
        = tryZstdChunked fs target out l fmt tried w := by
      simp only [trySoci]
      rw [if_neg hg]
    rw [heq]
    simpa [hgate, List.filter_cons] using
      tryZstdChunked_trace fs sociAvail target out l fmt tried w

theorem tryEStargz_trace (fs : FsOutcome) (sociAvail : Bool)
    (target out : List Char) (l : LayerM) (fmt : Format)
    (tried : List Strategy) (w : List FsWrite) :
    (∃ k, (tryEStargz fs sociAvail target out l fmt tried w).2.1
        = tried ++ (List.filter (strategyGate fmt sociAvail) fixedOrder).take k)
    ∧ ((tryEStargz fs sociAvail target out l fmt tried w).1 = false →
       (tryEStargz fs sociAvail target out l fmt tried w).2.1
         = tried ++ List.filter (strategyGate fmt sociAvail) fixedOrder) := by
  by_cases hg : fmt = Format.unknown ∨ fmt = Format.estargz
  · have hgate : strategyGate fmt sociAvail Strategy.estargz = true := by
      simp [strategyGate, hg]
    by_cases hok : isOkB l.estargzRes = true
    · constructor
      · refine ⟨1, ?_⟩
        simp [tryEStargz, hg, hok, hgate, fixedOrder, List.filter]
      · intro hfail
        exfalso
        simp [tryEStargz, hg, hok] at hfail
    · have hok' := eq_false_of_ne_true hok
      have heq : tryEStargz fs sociAvail target out l fmt tried w
          = trySoci fs sociAvail target out l fmt (tried ++ [Strategy.estargz]) w := by
        simp [tryEStargz, hg, hok']
      have hrec := trySoci_trace fs sociAvail target out l fmt
        (tried ++ [Strategy.estargz]) w
      constructor
      · rcases hrec.1 with ⟨k, hk⟩
        refine ⟨k + 1, ?_⟩
        rw [heq, hk]
        simp [hgate, fixedOrder, List.filter_cons, List.take_succ_cons,
          List.append_assoc]
      · intro hfail
        rw [heq] at hfail ⊢
        rw [hrec.2 hfail]
        simp [hgate, fixedOrder, List.filter_cons, List.append_assoc]
  · have hgate : strategyGate fmt sociAvail Strategy.estargz = false :=
      decide_eq_false hg
    have heq : tryEStargz fs sociAvail target out l fmt tried w
        = trySoci fs sociAvail target out l fmt tried w := by
      simp [tryEStargz, hg]
    rw [heq]
    simpa [hgate, fixedOrder, List.filter_cons] using
      trySoci_trace fs sociAvail target out l fmt tried w

/-- Amended C3: with no forced format the attempted strategies are an
initial segment (cut at the first success) of the fixed order filtered by
the detected format's gates; in particular a failing layer attempts
exactly the gated chain, and a strategy outside its gate is never
attempted. -/
theorem strategy_chain_gated (fs : FsOutcome) (sociAvail : Bool)
    (target out : List Char) (l : LayerM) :
    (∃ k, (extractFromLayerM fs sociAvail Format.unknown target out l).2.1
        = (gatedChain (DetectFormat l.blob) sociAvail).take k)
    ∧ ((extractFromLayerM fs sociAvail Format.unknown target out l).1 = false →
       (extractFromLayerM fs sociAvail Format.unknown target out l).2.1
         = gatedChain (DetectFormat l.blob) sociAvail) := by
  have heq : extractFromLayerM fs sociAvail Format.unknown target out l
      = tryEStargz fs sociAvail target out l (DetectFormat l.blob) [] [] := rfl
  rw [heq]
  simpa [gatedChain] using
    tryEStargz_trace fs sociAvail target out l (DetectFormat l.blob) [] []

/-- Witness for `strategy_chain_gated`: a gzip layer without the file, on
which the whole gated chain (just the standard strategy) is attempted. -/
theorem strategy_chain_gated_witness :
    (extractFromLayerM fsAllOk false Format.unknown ['a'] ['o'] (mkGzipLayer [])).2.1
      = gatedChain (DetectFormat (mkGzipLayer []).blob) false :=
  (strategy_chain_gated fsAllOk false ['a'] ['o'] (mkGzipLayer [])).2 rfl

theorem readAtMiss_correct (r : RemoteReader) (c : Cache) (bufLen : Nat)
    (off : Int) (hsize : r.size = (r.blob.length : Int))
    (h1 : ¬ off < 0) (h2 : ¬ r.size ≤ off) (hinv : CacheInv r c) :
    (readAtMiss r c bufLen off).1
      = Except.ok ((r.blob.drop off.toNat).take (min bufLen (r.size - off).toNat))
    ∧ CacheInv r (readAtMiss r c bufLen off).2.1 := by
  have hbytes : ((rangeBody r.blob off
      (if r.size ≤ off + (bufLen : Int) - 1 then r.size - 1
       else off + (bufLen : Int) - 1)).take bufLen)
      = (r.blob.drop off.toNat).take (min bufLen (r.size - off).toNat) := by
    unfold rangeBody
    rw [List.take_take]
    congr 1
    by_cases h4 : r.size ≤ off + (bufLen : Int) - 1
    · rw [if_pos h4]
      omega
    · rw [if_neg h4]
      omega
  have hlenK : min bufLen (r.size - off).toNat ≤ (r.blob.drop off.toNat).length := by
    rw [List.length_drop]
    omega
  have hn : ((r.blob.drop off.toNat).take (min bufLen (r.size - off).toNat)).length
      = min bufLen (r.size - off).toNat := by
    rw [List.length_take]
    omega
  constructor
  · simp only [readAtMiss, hbytes]
  · simp only [readAtMiss, hbytes]
    by_cases h5 : 0 < ((r.blob.drop off.toNat).take (min bufLen (r.size - off).toNat)).length
        ∧ ((r.blob.drop off.toNat).take (min bufLen (r.size - off).toNat)).length
            ≤ cacheCapacity
    · rw [if_pos h5]
      intro _
      dsimp only
      rw [hn]
      refine ⟨by omega, by omega, by omega, ?_⟩
      congr 1
      omega
    · rw [if_neg h5]
      exact hinv

/-- Per-call correctness of `ReadAt`: on an invariant-respecting cache it
returns exactly what the cache-free §4.C reader returns, and the cache
invariant is preserved. -/
theorem ReadAt_correct (r : RemoteReader) (c : Cache) (bufLen : Nat) (off : Int)
    (hsize : r.size = (r.blob.length : Int)) (hinv : CacheInv r c) :
    (ReadAt r c bufLen off).1 = ReadAtNoCache r.blob bufLen off
    ∧ CacheInv r (ReadAt r c bufLen off).2.1 := by
  by_cases h1 : off < 0
  · constructor
    · simp [ReadAt, ReadAtNoCache, h1]
    · simpa [ReadAt, h1] using hinv
  · by_cases h2 : r.size ≤ off
    · have h2' : ((r.blob.length : Int)) ≤ off := by rw [← hsize]; exact h2
      constructor
      · simp [ReadAt, ReadAtNoCache, h1, h2, h2']
      · simpa [ReadAt, h1, h2] using hinv
    · have h2' : ¬ ((r.blob.length : Int)) ≤ off := by rw [← hsize]; exact h2
      by_cases h3 : c.cacheValid = true ∧ c.cacheStart ≤ off
          ∧ off + (bufLen : Int) ≤ c.cacheEnd
      · obtain ⟨hv, hs, he⟩ := h3
        obtain ⟨hb0, hb1, hb2, hdata⟩ := hinv hv
        have hres : (ReadAt r c bufLen off).1
            = Except.ok ((c.cacheData.drop (off - c.cacheStart).toNat).take bufLen) := by
          simp [ReadAt, h1, h2, hv, hs, he]
        have hcache : (ReadAt r c bufLen off).2.1 = c := by
          simp [ReadAt, h1, h2, hv, hs, he]
        constructor
        · rw [hres]
          unfold ReadAtNoCache
          rw [if_neg h1, if_neg h2']
          congr 1
          rw [hdata, List.drop_take, List.drop_drop, List.take_take]
          have e1 : c.cacheStart.toNat + (off - c.cacheStart).toNat = off.toNat := by
            omega
          have e2 : min bufLen ((c.cacheEnd - c.cacheStart).toNat
              - (off - c.cacheStart).toNat)
              = min bufLen (((r.blob.length : Int) - off).toNat) := by
            omega
          rw [e1, e2]
        · rw [hcache]
          exact hinv
      · have hmiss : ReadAt r c bufLen off = readAtMiss r c bufLen off := by
          simp only [ReadAt]
          rw [if_neg h1, if_neg h2, if_neg h3]
        rw [hmiss]
        have h := readAtMiss_correct r c bufLen off hsize h1 h2 hinv
        refine ⟨?_, h.2⟩
        rw [h.1]
        unfold ReadAtNoCache
        rw [if_neg h1, if_neg h2', hsize]

/-- Amended C6: the `ReadAt` contract.  A negative offset is an
invalid-argument error; `offset ≥ size` is the end-of-stream sentinel
with zero bytes and no request; otherwise the call succeeds (short counts
at end-of-stream included) with exactly the blob bytes at that offset,
`min(len(buf), size − offset)` of them.  An empty buffer therefore reads
zero bytes, but — unlike the claim — a request may still be issued. -/
theorem readAt_contract (r : RemoteReader) (c : Cache) (bufLen : Nat) (off : Int)
    (hsize : r.size = (r.blob.length : Int)) (hinv : CacheInv r c) :
    (off < 0 → ReadAt r c bufLen off = (Except.error ReadErr.negativeOffset, c, false))
    ∧ (¬ off < 0 → r.size ≤ off →
       ReadAt r c bufLen off = (Except.error ReadErr.eofSentinel, c, false))
    ∧ (¬ off < 0 → ¬ r.size ≤ off →
       (ReadAt r c bufLen off).1
         = Except.ok ((r.blob.drop off.toNat).take (min bufLen (r.size - off).toNat))) := by
  refine ⟨?_, ?_, ?_⟩
  · intro h1
    simp [ReadAt, h1]
  · intro h1 h2
    simp [ReadAt, h1, h2]
  · intro h1 h2
    have h2' : ¬ ((r.blob.length : Int)) ≤ off := by rw [← hsize]; exact h2
    have h := (ReadAt_correct r c bufLen off hsize hinv).1
    rw [h]
    unfold ReadAtNoCache
    rw [if_neg h1, if_neg h2', hsize]

/-- Witness for `readAt_contract` on a fresh reader over `[5, 6, 7]`. -/
theorem readAt_contract_witness :
    (ReadAt (mkRemoteReader [5, 6, 7]) freshCache 2 1).1 = Except.ok [6, 7] := by
  have h := (readAt_contract (mkRemoteReader [5, 6, 7]) freshCache 2 1 rfl
    (by intro hv; exact absurd hv (by decide))).2.2 (by decide) (by decide)
  rw [h]
  rfl

/-- C6 counterexample: on a fresh (empty-cache) reader, `ReadAt` with an
empty buffer at a valid offset still issues a ranged request — the
request-suppression in the claim holds only for the cache-hit path. -/
theorem empty_buf_still_requests :
    (ReadAt (mkRemoteReader [1, 2, 3]) freshCache 0 0).2.2 = true
    ∧ (ReadAt (mkRemoteReader [1, 2, 3]) freshCache 0 0).1 = Except.ok [] := by
  constructor
  · rfl
  · rfl

/-- C7: cache transparency.  For any blob and any sequence of `ReadAt`
calls, the results are those of the cache-free §4.C reader: the cache-hit
path and the network path are observationally equivalent. -/
theorem cache_transparency (blob : List Nat) (calls : List (Nat × Int)) :
    runReads (mkRemoteReader blob) freshCache calls
      = calls.map (fun q => ReadAtNoCache blob q.1 q.2) := by
  have hsize : (mkRemoteReader blob).size = ((mkRemoteReader blob).blob.length : Int) := rfl
  have hgen : ∀ (qs : List (Nat × Int)) (c : Cache), CacheInv (mkRemoteReader blob) c →
      runReads (mkRemoteReader blob) c qs
        = qs.map (fun q => ReadAtNoCache blob q.1 q.2) := by
    intro qs
    induction qs with
    | nil => intro c _; rfl
    | cons q qs ih =>
      intro c hc
      have h := ReadAt_correct (mkRemoteReader blob) c q.1 q.2 hsize hc
      simp only [runReads, h.1, List.map_cons]
      rw [ih _ h.2]
      rfl
  exact hgen calls freshCache (fun hv => absurd hv (by decide))
